import Mathlib

/-!
# Verification of `src/utils/Sample.py` (`track_scaling_telemetry`)

Shallow embedding of the scaling-telemetry sampler of the `zeus` repository.

The Python function `track_scaling_telemetry` drives a wall-clock-bounded
polling loop: at each tick it reads the deployment status and the node list
from the cluster API, folds the node observations into two dictionaries
(`node_first_seen`, `node_ready_time`), and appends a sample
`(elapsed, available, total_nodes, ready_nodes)` to `time_series`.

The embedding models wall-clock time as a rational number of seconds
(`time.time()` deltas), with the duration of each external API call supplied
by a `GatewayTrace`: the environment chooses the responses and the latencies,
the code under verification chooses everything else.  `elapsed` is the floor
of the wall-clock delta, as `int(time.time() - start_time)` computes for a
non-negative delta.  The loop is driven by fuel; fuel `timeout + 1` is proved
sufficient whenever the polling interval is at least one second, so the
top-level function exhausts its fuel only in runs the Python code would not
terminate on either.
-/

namespace Zeus

/-- One entry of a node's `status.conditions` list, as read by the sampler:
only the `type` and `status` string fields are consulted. -/
structure NodeCondition where
  type : String
  status : String
deriving DecidableEq, Repr

/-- A node as the sampler reads it: `metadata.name` and `status.conditions`
are flattened into the two fields consulted by the code.  A report with no
conditions present is modelled by an empty `conditions` list. -/
structure K8sNode where
  name : String
  conditions : List NodeCondition
deriving DecidableEq, Repr

/-- The deployment status as the sampler reads it: only
`status.available_replicas`, which the orchestrator may report as null
(`none`). -/
structure DeploymentStatus where
  available_replicas : Option Nat
deriving DecidableEq, Repr

/-- The environment's behaviour at one tick of the loop: the latency and
response of `read_namespaced_deployment`, then the latency and response of
`list_node`. -/
structure TickData where
  dep_dur : ℚ
  dep_status : DeploymentStatus
  nodes_dur : ℚ
  nodes : List K8sNode
deriving Repr

/-- The environment of a whole run: the latency and response of the pre-loop
`list_node` snapshot, and the per-tick behaviour of the two gateway calls. -/
structure GatewayTrace where
  init_dur : ℚ
  init_nodes : List K8sNode
  ticks : Nat → TickData

/-- Dictionary lookup on an association list, mirroring Python
`d[k]` / `k in d` on the string-keyed dicts of the sampler. -/
def lookupName : List (String × Nat) → String → Option Nat
  | [], _ => none
  | (k, v) :: rest, n => if k = n then some v else lookupName rest n

/-- `int(time.time() - start_time)` for a non-negative wall-clock delta:
the floor of the rational delta, as a natural number. -/
def elapsedOf (q : ℚ) : Nat := (⌊q⌋).toNat

/-- The mutable loop state of `track_scaling_telemetry`: the wall clock
(seconds since `start_time`) and the three accumulators.  Python dicts
preserve insertion order, so each dict is an association list to which new
keys are appended at the end. -/
structure LoopState where
  now : ℚ
  node_first_seen : List (String × Nat)
  node_ready_time : List (String × Nat)
  time_series : List (Nat × Nat × Nat × Nat)
deriving Repr

/-- The per-node body of the tick (`Sample.py` lines 55-63): record
`first_seen` if the name is new, then scan the condition list and record
`ready_time` at the first `Ready`/`True` condition if not yet recorded. -/
def processNode (elapsed : Nat) (maps : List (String × Nat) × List (String × Nat))
    (node : K8sNode) : List (String × Nat) × List (String × Nat) :=
  let fs := if lookupName maps.1 node.name = none
    then maps.1 ++ [(node.name, elapsed)] else maps.1
  let rt := node.conditions.foldl (fun rt c =>
    if c.type = "Ready" ∧ c.status = "True" then
      if lookupName rt node.name = none then rt ++ [(node.name, elapsed)] else rt
    else rt) maps.2
  (fs, rt)

/-- One iteration of the loop body (`Sample.py` lines 44-74), given the
environment's `TickData`.  `elapsed` is taken at the top of the iteration,
before the two gateway calls advance the wall clock; `available` treats a
null `available_replicas` as `0` (`... or 0`); `total_nodes` is the size of
the set comprehension over node names; the returned flag is the
`available >= target_replicas` break condition.  (The `new_nodes` set of
line 53 is computed but never used inside the loop and is omitted.) -/
def tickStep (target_replicas : Nat) (td : TickData) (st : LoopState) :
    LoopState × Bool :=
  let elapsed := elapsedOf st.now
  let now1 := st.now + td.dep_dur
  let available := td.dep_status.available_replicas.getD 0
  let now2 := now1 + td.nodes_dur
  let current_nodes := td.nodes
  let all_nodes := (current_nodes.map K8sNode.name).dedup
  let maps := current_nodes.foldl (processNode elapsed)
    (st.node_first_seen, st.node_ready_time)
  let total_nodes := all_nodes.length
  let ready_nodes := maps.2.length
  ({ now := now2
     node_first_seen := maps.1
     node_ready_time := maps.2
     time_series := st.time_series ++ [(elapsed, available, total_nodes, ready_nodes)] },
   decide (target_replicas ≤ available))

/-- The `while time.time() - start_time < timeout` loop (lines 43-76), with
fuel.  On `break` (target reached) the flag is `true`; on normal exhaustion
of the `while` condition the flag is `false` (the `else:` branch).  After a
tick that does not break, `time.sleep(interval)` advances the clock.  `none`
means the fuel ran out, which `runLoop_fuel_sufficient` below rules out for
`fuel = timeout + 1` whenever `1 ≤ interval` and latencies are
non-negative. -/
def runLoop (target_replicas timeout interval : Nat) (tr : GatewayTrace)
    (k fuel : Nat) (st : LoopState) : Option (LoopState × Bool) :=
  match fuel with
  | 0 => none
  | fuel + 1 =>
    if st.now < (timeout : ℚ) then
      let r := tickStep target_replicas (tr.ticks k) st
      if r.2 then some (r.1, true)
      else runLoop target_replicas timeout interval tr (k + 1) fuel
        { r.1 with now := r.1.now + (interval : ℚ) }
    else some (st, false)

/-- The durations dictionary comprehension (lines 86-89):
`node_ready_time[node] - node_first_seen[node]` over the ready dict, in
integer arithmetic.  Indexing `node_first_seen[node]` raises `KeyError` when
the key is absent; that is modelled by `none` (the tracker invariant, proved
below, shows it never happens). -/
def node_ready_durations_of (node_first_seen : List (String × Nat)) :
    List (String × Nat) → Option (List (String × ℤ))
  | [] => some []
  | (n, r) :: rest =>
    match lookupName node_first_seen n, node_ready_durations_of node_first_seen rest with
    | some f, some ds => some ((n, (r : ℤ) - (f : ℤ)) :: ds)
    | _, _ => none

/-- What a call of `track_scaling_telemetry` does after the loop: `ok`
carries the returned pair (line 134), `err` is an uncaught exception.  With
an empty `time_series` the call raises before returning: `NameError` on
`available` in the timeout log (line 78) and `IndexError` on
`time_series[-1]` (line 82); a missing `node_first_seen` key would raise
`KeyError` (line 87). -/
inductive RunOutcome where
  | ok (time_series : List (Nat × Nat × Nat × Nat))
       (node_ready_durations : List (String × ℤ))
  | err
deriving DecidableEq, Repr

/-- Post-loop finalization (lines 77-89 and 134): reading `time_series[-1]`
fails on an empty series (the same runs also hit the line-78 `NameError`
first — either way the call raises); otherwise the durations are computed
and the pair `(time_series, node_ready_durations)` is returned. -/
def finalize (st : LoopState) : RunOutcome :=
  match st.time_series.getLast? with
  | none => .err
  | some _ =>
    match node_ready_durations_of st.node_first_seen st.node_ready_time with
    | none => .err
    | some d => .ok st.time_series d

/-- The loop state at `start_time`: the wall clock has advanced by the
initial snapshot's latency and the accumulators are empty. -/
def initState (tr : GatewayTrace) : LoopState :=
  { now := tr.init_dur
    node_first_seen := []
    node_ready_time := []
    time_series := [] }

/-- `track_scaling_telemetry(target_replicas, timeout, interval)` against
the environment `tr`: record `start_time`, take the initial node snapshot
(advancing the clock by its latency), run the loop from fuel `timeout + 1`,
finalize.  `none` is fuel exhaustion only. -/
def track_scaling_telemetry (target_replicas timeout interval : Nat)
    (tr : GatewayTrace) : Option RunOutcome :=
  (runLoop target_replicas timeout interval tr 0 (timeout + 1)
      (initState tr)).map (fun r => finalize r.1)

/-- The final value of the loop state, for stating properties of the
accumulators (the dicts also feed the CSV export and summary table). -/
def finalLoopState (target_replicas timeout interval : Nat)
    (tr : GatewayTrace) : Option LoopState :=
  (runLoop target_replicas timeout interval tr 0 (timeout + 1)
      (initState tr)).map Prod.fst

/-- How the loop exited: `some true` for the `break` at target reached,
`some false` for the `while`-condition exhaustion that runs the `else:`
timeout branch.  This is control-flow knowledge of the loop; it is logged
(lines 73 and 78) but not part of the returned value. -/
def loopReached (target_replicas timeout interval : Nat)
    (tr : GatewayTrace) : Option Bool :=
  (runLoop target_replicas timeout interval tr 0 (timeout + 1)
      (initState tr)).map Prod.snd

/-- Python `round(x, 2)` on an exact value: round half to even at two
decimal places. -/
def pyRound2 (q : ℚ) : ℚ :=
  let x := q * 100
  let f := ⌊x⌋
  let r := x - (f : ℚ)
  let n : ℤ :=
    if r < 1 / 2 then f
    else if 1 / 2 < r then f + 1
    else if f % 2 = 0 then f else f + 1
  (n : ℚ) / 100

/-- The summary statistics of lines 91-99: restrict the durations dict to
the node names not in the initial snapshot, and if that set is non-empty
take `min`, `max` and `round(mean(...), 2)` of its durations, else report
`(0, 0, 0)`.  (`set(node_ready_durations.keys()) - initial_nodes` filters
the dict's keys, which are distinct, so the filtered entry list enumerates
exactly that set.) -/
def scalingSummary (initial_nodes : List String)
    (node_ready_durations : List (String × ℤ)) : ℤ × ℤ × ℚ :=
  let new_entries := node_ready_durations.filter
    (fun p => decide (p.1 ∉ initial_nodes))
  match new_entries.map Prod.snd with
  | [] => (0, 0, 0)
  | d :: ds =>
    (ds.foldl min d, ds.foldl max d,
     pyRound2 (((d :: ds).foldl (fun (s : ℚ) (x : ℤ) => s + (x : ℚ)) 0) /
       ((ds.length + 1 : Nat) : ℚ)))

/-- The environment hypothesis that wall-clock time never runs backwards:
every gateway latency is non-negative. -/
def NonnegTrace (tr : GatewayTrace) : Prop :=
  0 ≤ tr.init_dur ∧ ∀ k, 0 ≤ (tr.ticks k).dep_dur ∧ 0 ≤ (tr.ticks k).nodes_dur

section Lemmas

lemma lookupName_mem {m : List (String × Nat)} {n : String} {v : Nat}
    (h : lookupName m n = some v) : (n, v) ∈ m := by
  induction m with
  | nil => simp [lookupName] at h
  | cons p rest ih =>
    rcases p with ⟨k, w⟩
    by_cases hk : k = n
    · subst hk
      simp [lookupName] at h
      simp [h]
    · simp [lookupName, hk] at h
      simp [ih h]

lemma lookupName_append_left {m l : List (String × Nat)} {n : String} {v : Nat}
    (h : lookupName m n = some v) : lookupName (m ++ l) n = some v := by
  induction m with
  | nil => simp [lookupName] at h
  | cons p rest ih =>
    rcases p with ⟨k, w⟩
    by_cases hk : k = n
    · subst hk
      simp_all [lookupName]
    · simp_all [lookupName, hk]

lemma lookupName_append_of_none {m : List (String × Nat)} {n : String}
    (h : lookupName m n = none) (k : String) (v : Nat) :
    lookupName (m ++ [(k, v)]) n = if k = n then some v else none := by
  induction m with
  | nil => simp [lookupName]
  | cons p rest ih =>
    rcases p with ⟨k2, w⟩
    by_cases hk : k2 = n
    · subst hk
      simp [lookupName] at h
    · simp_all [lookupName, hk]

lemma lookupName_eq_none_iff {m : List (String × Nat)} {n : String} :
    lookupName m n = none ↔ n ∉ m.map Prod.fst := by
  induction m with
  | nil => simp [lookupName]
  | cons p rest ih =>
    rcases p with ⟨k, w⟩
    by_cases hk : k = n
    · subst hk
      simp [lookupName]
    · simp only [lookupName, if_neg hk, List.map_cons, List.mem_cons, ih]
      constructor
      · rintro h (h1 | h1)
        · exact hk h1.symm
        · exact h h1
      · exact fun h hm => h (Or.inr hm)

/-- The condition scan of lines 60-63, as a function of the ready dict. -/
def readyScan (name : String) (elapsed : Nat) (conds : List NodeCondition)
    (rt : List (String × Nat)) : List (String × Nat) :=
  conds.foldl (fun rt c =>
    if c.type = "Ready" ∧ c.status = "True" then
      if lookupName rt name = none then rt ++ [(name, elapsed)] else rt
    else rt) rt

lemma processNode_eq (elapsed : Nat) (maps : List (String × Nat) × List (String × Nat))
    (node : K8sNode) :
    processNode elapsed maps node =
      ((if lookupName maps.1 node.name = none
          then maps.1 ++ [(node.name, elapsed)] else maps.1),
        readyScan node.name elapsed node.conditions maps.2) := by
  rfl

/-- Full characterization of the condition scan's effect on lookups: the
scan records `elapsed` for `name` exactly when some `Ready`/`True` condition
is present and `name` has no entry yet; every other lookup is untouched. -/
lemma readyScan_lookup (name : String) (elapsed : Nat) (conds : List NodeCondition)
    (rt : List (String × Nat)) (x : String) :
    lookupName (readyScan name elapsed conds rt) x =
      if (∃ c ∈ conds, c.type = "Ready" ∧ c.status = "True") ∧
          lookupName rt x = none ∧ x = name
      then some elapsed else lookupName rt x := by
  induction conds generalizing rt with
  | nil => simp [readyScan]
  | cons c cs ih =>
    simp only [readyScan, List.foldl_cons] at *
    by_cases hc : c.type = "Ready" ∧ c.status = "True"
    · rw [if_pos hc]
      by_cases habs : lookupName rt name = none
      · rw [if_pos habs, ih]
        by_cases hx : x = name
        · subst hx
          rw [lookupName_append_of_none habs x elapsed]
          simp [habs, hc]
        · rw [show lookupName (rt ++ [(name, elapsed)]) x = lookupName rt x from ?_]
          · simp [hx]
          · cases h0 : lookupName rt x with
            | none =>
              rw [lookupName_append_of_none h0 name elapsed,
                if_neg (fun h => hx h.symm)]
            | some v => exact lookupName_append_left h0
      · rw [if_neg habs, ih]
        by_cases hx : x = name
        · subst hx
          simp [habs]
        · simp [hx]
    · rw [if_neg hc, ih]
      have : (∃ c2 ∈ c :: cs, c2.type = "Ready" ∧ c2.status = "True") ↔
          (∃ c2 ∈ cs, c2.type = "Ready" ∧ c2.status = "True") := by
        simp only [List.mem_cons]
        constructor
        · rintro ⟨c2, (rfl | hm), hp⟩
          · exact absurd hp hc
          · exact ⟨c2, hm, hp⟩
        · rintro ⟨c2, hm, hp⟩
          exact ⟨c2, Or.inr hm, hp⟩
      rw [if_congr (iff_of_eq (congrArg _ rfl)) rfl rfl]
      by_cases hcs : (∃ c2 ∈ cs, c2.type = "Ready" ∧ c2.status = "True") ∧
          lookupName rt x = none ∧ x = name
      · rw [if_pos hcs, if_pos ⟨this.mpr hcs.1, hcs.2⟩]
      · rw [if_neg hcs, if_neg (fun h => hcs ⟨this.mp h.1, h.2⟩)]

/-- Existing ready entries survive the condition scan. -/
lemma readyScan_lookup_preserved {name : String} {elapsed : Nat}
    {conds : List NodeCondition} {rt : List (String × Nat)} {x : String} {r : Nat}
    (h : lookupName rt x = some r) :
    lookupName (readyScan name elapsed conds rt) x = some r := by
  rw [readyScan_lookup]
  simp [h]

/-- Every entry after the condition scan is an old entry or the new
`(name, elapsed)` record. -/
lemma readyScan_mem {name : String} {elapsed : Nat} {conds : List NodeCondition}
    {rt : List (String × Nat)} {p : String × Nat}
    (h : p ∈ readyScan name elapsed conds rt) : p ∈ rt ∨ p = (name, elapsed) := by
  induction conds generalizing rt with
  | nil => exact Or.inl h
  | cons c cs ih =>
    simp only [readyScan, List.foldl_cons] at h
    by_cases hc : c.type = "Ready" ∧ c.status = "True"
    · rw [if_pos hc] at h
      by_cases habs : lookupName rt name = none
      · rw [if_pos habs] at h
        rcases ih h with hm | hm
        · rcases List.mem_append.mp hm with hm2 | hm2
          · exact Or.inl hm2
          · simp at hm2
            exact Or.inr (by simp [hm2])
        · exact Or.inr hm
      · rw [if_neg habs] at h
        exact ih h
    · rw [if_neg hc] at h
      exact ih h

/-- The condition scan only appends, so the dict cannot shrink. -/
lemma readyScan_length_le (name : String) (elapsed : Nat)
    (conds : List NodeCondition) (rt : List (String × Nat)) :
    rt.length ≤ (readyScan name elapsed conds rt).length := by
  induction conds generalizing rt with
  | nil => simp [readyScan]
  | cons c cs ih =>
    simp only [readyScan, List.foldl_cons]
    by_cases hc : c.type = "Ready" ∧ c.status = "True"
    · rw [if_pos hc]
      by_cases habs : lookupName rt name = none
      · rw [if_pos habs]
        calc rt.length ≤ (rt ++ [(name, elapsed)]).length := by simp
        _ ≤ _ := ih _
      · rw [if_neg habs]
        exact ih rt
    · rw [if_neg hc]
      exact ih rt

/-- The condition scan preserves distinctness of the dict's keys: it appends
a key only when that key is absent. -/
lemma readyScan_nodup {name : String} {elapsed : Nat} {conds : List NodeCondition}
    {rt : List (String × Nat)} (h : (rt.map Prod.fst).Nodup) :
    ((readyScan name elapsed conds rt).map Prod.fst).Nodup := by
  induction conds generalizing rt with
  | nil => exact h
  | cons c cs ih =>
    simp only [readyScan, List.foldl_cons]
    by_cases hc : c.type = "Ready" ∧ c.status = "True"
    · rw [if_pos hc]
      by_cases habs : lookupName rt name = none
      · rw [if_pos habs]
        refine ih ?_
        have hnm := lookupName_eq_none_iff.mp habs
        simp only [List.map_append, List.map_cons, List.map_nil]
        refine List.Nodup.append h (List.nodup_singleton name) ?_
        intro a ha hb
        rw [List.mem_singleton] at hb
        subst hb
        exact hnm ha
      · rw [if_neg habs]
        exact ih h
    · rw [if_neg hc]
      exact ih h

/-- Full characterization of the first-seen update of lines 57-58: the node
being processed gets `elapsed` recorded exactly if it had no record; every
other lookup is untouched. -/
lemma processNode_fst_lookup (elapsed : Nat)
    (maps : List (String × Nat) × List (String × Nat)) (node : K8sNode) (x : String) :
    lookupName (processNode elapsed maps node).1 x =
      if lookupName maps.1 x = none ∧ x = node.name then some elapsed
      else lookupName maps.1 x := by
  rw [processNode_eq]
  by_cases habs : lookupName maps.1 node.name = none
  · rw [if_pos habs]
    by_cases hx : x = node.name
    · subst hx
      rw [lookupName_append_of_none habs node.name elapsed]
      simp [habs]
    · cases h0 : lookupName maps.1 x with
      | none =>
        rw [lookupName_append_of_none h0 node.name elapsed,
          if_neg (fun h => hx h.symm), if_neg (fun h => hx h.2)]
      | some v =>
        rw [lookupName_append_left h0, if_neg (fun h => hx h.2)]
  · rw [if_neg habs]
    by_cases hx : x = node.name
    · subst hx
      simp [habs]
    · simp [hx]

/-- The Readiness Tracker invariant at elapsed time `e`: every recorded
first-seen time is at most `e`, and every ready record has a first-seen
record for the same node at an earlier or equal time. -/
def MapsInv (e : Nat) (maps : List (String × Nat) × List (String × Nat)) : Prop :=
  (∀ p ∈ maps.1, p.2 ≤ e) ∧
  (∀ p ∈ maps.2, ∃ f, lookupName maps.1 p.1 = some f ∧ f ≤ p.2)

lemma MapsInv.mono {e e2 : Nat} {maps : List (String × Nat) × List (String × Nat)}
    (h : MapsInv e maps) (he : e ≤ e2) : MapsInv e2 maps :=
  ⟨fun p hp => le_trans (h.1 p hp) he, h.2⟩

lemma MapsInv_processNode {e : Nat} {maps : List (String × Nat) × List (String × Nat)}
    {node : K8sNode} (h : MapsInv e maps) : MapsInv e (processNode e maps node) := by
  obtain ⟨h1, h2⟩ := h
  constructor
  · intro p hp
    rw [processNode_eq] at hp
    by_cases habs : lookupName maps.1 node.name = none
    · rw [if_pos habs] at hp
      rcases List.mem_append.mp hp with hm | hm
      · exact h1 p hm
      · simp at hm
        simp [hm]
    · rw [if_neg habs] at hp
      exact h1 p hp
  · intro p hp
    rw [processNode_eq] at hp
    rcases readyScan_mem hp with hm | hm
    · obtain ⟨f, hf, hfe⟩ := h2 p hm
      refine ⟨f, ?_, hfe⟩
      rw [processNode_fst_lookup]
      simp [hf]
    · subst hm
      rw [processNode_fst_lookup]
      cases h0 : lookupName maps.1 node.name with
      | none => exact ⟨e, by simp [h0], le_refl e⟩
      | some f =>
        refine ⟨f, by simp [h0], ?_⟩
        exact h1 _ (lookupName_mem h0)

lemma MapsInv_foldl {e : Nat} {maps : List (String × Nat) × List (String × Nat)}
    {nodes : List K8sNode} (h : MapsInv e maps) :
    MapsInv e (nodes.foldl (processNode e) maps) := by
  induction nodes generalizing maps with
  | nil => exact h
  | cons nd nds ih => exact ih (MapsInv_processNode h)

lemma processNode_snd_length_le (e : Nat)
    (maps : List (String × Nat) × List (String × Nat)) (node : K8sNode) :
    maps.2.length ≤ (processNode e maps node).2.length := by
  rw [processNode_eq]
  exact readyScan_length_le node.name e node.conditions maps.2

lemma foldl_snd_length_le (e : Nat)
    (maps : List (String × Nat) × List (String × Nat)) (nodes : List K8sNode) :
    maps.2.length ≤ (nodes.foldl (processNode e) maps).2.length := by
  induction nodes generalizing maps with
  | nil => exact le_refl _
  | cons nd nds ih =>
    exact le_trans (processNode_snd_length_le e maps nd) (ih _)

lemma foldl_snd_nodup {e : Nat} {maps : List (String × Nat) × List (String × Nat)}
    {nodes : List K8sNode} (h : (maps.2.map Prod.fst).Nodup) :
    (((nodes.foldl (processNode e) maps).2).map Prod.fst).Nodup := by
  induction nodes generalizing maps with
  | nil => exact h
  | cons nd nds ih =>
    refine ih ?_
    rw [processNode_eq]
    exact readyScan_nodup h

lemma elapsedOf_mono {a b : ℚ} (h : a ≤ b) : elapsedOf a ≤ elapsedOf b :=
  Int.toNat_le_toNat (Int.floor_mono h)

lemma elapsedOf_add_pos {q d : ℚ} (hq : 0 ≤ q) (hd : 1 ≤ d) :
    elapsedOf q + 1 ≤ elapsedOf (q + d) := by
  have hq0 : (0 : ℤ) ≤ ⌊q⌋ := Int.le_floor.mpr (by exact_mod_cast hq)
  have h1 : ⌊q⌋ + 1 ≤ ⌊q + d⌋ := by
    have h2 := Int.floor_mono (show q + 1 ≤ q + d by linarith)
    rwa [show q + 1 = q + (1 : ℤ) by push_cast; ring, Int.floor_add_int] at h2
  unfold elapsedOf
  omega

lemma elapsedOf_natCast (n : Nat) : elapsedOf (n : ℚ) = n := by
  unfold elapsedOf
  rw [Int.floor_natCast]
  exact Int.toNat_natCast n

/-- One non-breaking iteration of the loop, unfolded: the tick is taken,
the break test fails, the sleep advances the clock. -/
lemma runLoop_step_no_break {target_replicas timeout interval : Nat}
    {tr : GatewayTrace} {k fuel : Nat} {st : LoopState}
    (hlt : st.now < (timeout : ℚ))
    (hnb : ¬ target_replicas ≤ (tr.ticks k).dep_status.available_replicas.getD 0) :
    runLoop target_replicas timeout interval tr k (fuel + 1) st =
      runLoop target_replicas timeout interval tr (k + 1) fuel
        { now := st.now + (tr.ticks k).dep_dur + (tr.ticks k).nodes_dur + (interval : ℚ)
          node_first_seen := ((tr.ticks k).nodes.foldl (processNode (elapsedOf st.now))
            (st.node_first_seen, st.node_ready_time)).1
          node_ready_time := ((tr.ticks k).nodes.foldl (processNode (elapsedOf st.now))
            (st.node_first_seen, st.node_ready_time)).2
          time_series := st.time_series ++ [(elapsedOf st.now,
            (tr.ticks k).dep_status.available_replicas.getD 0,
            ((tr.ticks k).nodes.map K8sNode.name).dedup.length,
            ((tr.ticks k).nodes.foldl (processNode (elapsedOf st.now))
              (st.node_first_seen, st.node_ready_time)).2.length)] } := by
  rw [runLoop, if_pos hlt]
  have hb : (tickStep target_replicas (tr.ticks k) st).2 = false := by
    simp [tickStep, hnb]
  simp only [hb, Bool.false_eq_true, if_false]
  rfl

/-- Loop exit by `while`-condition exhaustion (the `else:` branch). -/
lemma runLoop_exit {target_replicas timeout interval : Nat}
    {tr : GatewayTrace} {k fuel : Nat} {st : LoopState}
    (hge : ¬ st.now < (timeout : ℚ)) :
    runLoop target_replicas timeout interval tr k (fuel + 1) st = some (st, false) := by
  rw [runLoop, if_neg hge]

/-- Generic invariant-transport through the loop: `P` holds at the top of
each iteration, `Q` after its tick; the loop's result state (reached either
by `break` or by `while`-exhaustion) satisfies `Q`. -/
lemma runLoop_inv {target_replicas timeout interval : Nat} {tr : GatewayTrace}
    (P Q : LoopState → Prop)
    (htick : ∀ k st, st.now < (timeout : ℚ) → P st →
      Q (tickStep target_replicas (tr.ticks k) st).1)
    (hsleep : ∀ st, Q st → P { st with now := st.now + (interval : ℚ) }) :
    ∀ fuel k st res, P st →
      runLoop target_replicas timeout interval tr k fuel st = some res →
      (res.2 = true ∧ Q res.1) ∨
        (res.2 = false ∧ P res.1 ∧ (timeout : ℚ) ≤ res.1.now) := by
  intro fuel
  induction fuel with
  | zero =>
    intro k st res hP h
    simp [runLoop] at h
  | succ fuel ih =>
    intro k st res hP h
    rw [runLoop] at h
    by_cases hlt : st.now < (timeout : ℚ)
    · rw [if_pos hlt] at h
      by_cases hb : (tickStep target_replicas (tr.ticks k) st).2 = true
      · simp only [hb, if_true] at h
        cases h
        exact Or.inl ⟨rfl, htick k st hlt hP⟩
      · simp only [Bool.not_eq_true] at hb
        simp only [hb, Bool.false_eq_true, if_false] at h
        exact ih (k + 1) _ res (hsleep _ (htick k st hlt hP)) h
    · rw [if_neg hlt] at h
      cases h
      exact Or.inr ⟨rfl, hP, not_lt.mp hlt⟩

/-- With a polling interval of at least one second and non-negative gateway
latencies, fuel `fuel + 1` suffices whenever `timeout ≤ now + fuel·interval`:
the Python loop terminates and the model does not exhaust its fuel. -/
lemma runLoop_isSome {target_replicas timeout interval : Nat} {tr : GatewayTrace}
    (hint : 1 ≤ interval) (htr : NonnegTrace tr) :
    ∀ (fuel k : Nat) (st : LoopState),
      (timeout : ℚ) ≤ st.now + (fuel : ℚ) * (interval : ℚ) →
      (runLoop target_replicas timeout interval tr k (fuel + 1) st).isSome := by
  intro fuel
  induction fuel with
  | zero =>
    intro k st hle
    rw [runLoop]
    rw [if_neg (by push_cast at hle ⊢; linarith)]
    simp
  | succ fuel ih =>
    intro k st hle
    rw [runLoop]
    by_cases hlt : st.now < (timeout : ℚ)
    · rw [if_pos hlt]
      by_cases hb : (tickStep target_replicas (tr.ticks k) st).2 = true
      · simp [hb]
      · simp only [Bool.not_eq_true] at hb
        simp only [hb, Bool.false_eq_true, if_false]
        refine ih (k + 1) _ ?_
        obtain ⟨hd, hn⟩ := htr.2 k
        simp only [tickStep]
        push_cast at hle ⊢
        have hint2 : (1 : ℚ) ≤ (interval : ℚ) := by exact_mod_cast hint
        nlinarith
    · rw [if_neg hlt]
      simp

/-- Fuel `timeout + 1` is enough from the initial state. -/
lemma runLoop_init_isSome {target_replicas timeout interval : Nat} {tr : GatewayTrace}
    (hint : 1 ≤ interval) (htr : NonnegTrace tr) :
    (runLoop target_replicas timeout interval tr 0 (timeout + 1) (initState tr)).isSome := by
  refine runLoop_isSome hint htr timeout 0 (initState tr) ?_
  have h0 := htr.1
  have hint2 : (1 : ℚ) ≤ (interval : ℚ) := by exact_mod_cast hint
  simp only [initState]
  have : (timeout : ℚ) * 1 ≤ (timeout : ℚ) * (interval : ℚ) := by
    refine mul_le_mul_of_nonneg_left hint2 (by positivity)
  nlinarith

/-- If the scanned node already has a ready record, the scan is the
identity on the dict (lines 62-63 guard every write). -/
lemma readyScan_eq_of_some {name : String} {elapsed : Nat} {conds : List NodeCondition}
    {rt : List (String × Nat)} {r : Nat} (h : lookupName rt name = some r) :
    readyScan name elapsed conds rt = rt := by
  induction conds with
  | nil => rfl
  | cons c cs ih =>
    simp only [readyScan, List.foldl_cons] at *
    by_cases hc : c.type = "Ready" ∧ c.status = "True"
    · rw [if_pos hc, if_neg (by rw [h]; exact fun hx => Option.noConfusion hx)]
      exact ih
    · rw [if_neg hc]
      exact ih

/-- The durations comprehension succeeds and yields a non-negative value per
entry as soon as every ready record has an earlier-or-equal first-seen
record. -/
lemma node_ready_durations_isSome {first ready : List (String × Nat)}
    (h : ∀ p ∈ ready, ∃ f, lookupName first p.1 = some f ∧ f ≤ p.2) :
    ∃ ds, node_ready_durations_of first ready = some ds ∧
      ds.map Prod.fst = ready.map Prod.fst ∧ ∀ q ∈ ds, 0 ≤ q.2 := by
  induction ready with
  | nil => exact ⟨[], rfl, rfl, by simp⟩
  | cons p rest ih =>
    obtain ⟨f, hf, hfe⟩ := h p (by simp)
    obtain ⟨ds, hds, hmap, hpos⟩ := ih (fun q hq => h q (by simp [hq]))
    rcases p with ⟨n, r⟩
    refine ⟨(n, (r : ℤ) - (f : ℤ)) :: ds, ?_, ?_, ?_⟩
    · simp only [node_ready_durations_of]
      rw [hf, hds]
    · simp [hmap]
    · intro q hq
      rcases List.mem_cons.mp hq with hq1 | hq1
      · subst hq1
        simp only []
        have : (f : ℤ) ≤ (r : ℤ) := by exact_mod_cast hfe
        omega
      · exact hpos q hq1

/-- A successful durations comprehension has one entry per ready record, for
the same node names in the same order. -/
lemma node_ready_durations_map_fst {first ready : List (String × Nat)}
    {ds : List (String × ℤ)} (h : node_ready_durations_of first ready = some ds) :
    ds.map Prod.fst = ready.map Prod.fst := by
  induction ready generalizing ds with
  | nil =>
    simp only [node_ready_durations_of] at h
    cases h
    rfl
  | cons p rest ih =>
    rcases p with ⟨n, r⟩
    simp only [node_ready_durations_of] at h
    cases hf : lookupName first n with
    | none => rw [hf] at h; cases h
    | some f =>
      rw [hf] at h
      cases hds : node_ready_durations_of first rest with
      | none => rw [hds] at h; cases h
      | some ds2 =>
        rw [hds] at h
        cases h
        simp [ih hds]

/-- Unfolding a successful finalization: the returned series is the loop's
and the durations comprehension succeeded. -/
lemma finalize_ok_elim {st : LoopState} {s : List (Nat × Nat × Nat × Nat)}
    {ds : List (String × ℤ)} (h : finalize st = .ok s ds) :
    s = st.time_series ∧
      node_ready_durations_of st.node_first_seen st.node_ready_time = some ds := by
  unfold finalize at h
  cases hl : st.time_series.getLast? with
  | none => rw [hl] at h; cases h
  | some x =>
    rw [hl] at h
    cases hd : node_ready_durations_of st.node_first_seen st.node_ready_time with
    | none => rw [hd] at h; cases h
    | some ds2 =>
      rw [hd] at h
      cases h
      exact ⟨rfl, rfl⟩

/-- A finalization with a non-empty series and a sound tracker returns the
pair `(time_series, node_ready_durations)`. -/
lemma finalize_ok {st : LoopState} (hne : st.time_series ≠ [])
    (hinv : ∀ p ∈ st.node_ready_time,
      ∃ f, lookupName st.node_first_seen p.1 = some f ∧ f ≤ p.2) :
    ∃ ds, finalize st = .ok st.time_series ds ∧
      node_ready_durations_of st.node_first_seen st.node_ready_time = some ds := by
  obtain ⟨ds, hds, _, _⟩ := node_ready_durations_isSome hinv
  refine ⟨ds, ?_, hds⟩
  unfold finalize
  cases hl : st.time_series.getLast? with
  | none => exact absurd (List.getLast?_eq_none_iff.mp hl) hne
  | some x => rw [hds]

lemma chain'_append_singleton {α : Type} {R : α → α → Prop} {l : List α} {e : α}
    (h : l.Chain' R) (hlast : ∀ x, l.getLast? = some x → R x e) :
    (l ++ [e]).Chain' R := by
  rw [List.chain'_append]
  refine ⟨h, List.chain'_singleton e, ?_⟩
  intro x hx y hy
  rw [List.head?_cons] at hy
  cases hy
  exact hlast x hx

lemma foldl_min_mem (d : ℤ) (ds : List ℤ) : ds.foldl min d ∈ d :: ds := by
  induction ds generalizing d with
  | nil => simp
  | cons a as ih =>
    rw [List.foldl_cons]
    rcases List.mem_cons.mp (ih (min d a)) with h | h
    · rcases min_choice d a with hm | hm
      · rw [h, hm]; simp
      · rw [h, hm]; simp
    · simp [h]

lemma foldl_min_le_init (d : ℤ) (ds : List ℤ) : ds.foldl min d ≤ d := by
  induction ds generalizing d with
  | nil => exact le_refl d
  | cons a as ih =>
    rw [List.foldl_cons]
    exact le_trans (ih (min d a)) (min_le_left d a)

lemma foldl_min_le (d : ℤ) (ds : List ℤ) : ∀ v ∈ d :: ds, ds.foldl min d ≤ v := by
  induction ds generalizing d with
  | nil => simp
  | cons a as ih =>
    intro v hv
    rw [List.foldl_cons]
    rcases List.mem_cons.mp hv with h1 | h1
    · subst h1
      exact le_trans (foldl_min_le_init (min v a) as) (min_le_left v a)
    · rcases List.mem_cons.mp h1 with h2 | h2
      · subst h2
        exact le_trans (foldl_min_le_init (min d v) as) (min_le_right d v)
      · exact ih (min d a) v (List.mem_cons_of_mem _ h2)

lemma le_foldl_max_init (d : ℤ) (ds : List ℤ) : d ≤ ds.foldl max d := by
  induction ds generalizing d with
  | nil => exact le_refl d
  | cons a as ih =>
    rw [List.foldl_cons]
    exact le_trans (le_max_left d a) (ih (max d a))

lemma le_foldl_max (d : ℤ) (ds : List ℤ) : ∀ v ∈ d :: ds, v ≤ ds.foldl max d := by
  induction ds generalizing d with
  | nil => simp
  | cons a as ih =>
    intro v hv
    rw [List.foldl_cons]
    rcases List.mem_cons.mp hv with h1 | h1
    · subst h1
      exact le_trans (le_max_left v a) (le_foldl_max_init (max v a) as)
    · rcases List.mem_cons.mp h1 with h2 | h2
      · subst h2
        exact le_trans (le_max_right d v) (le_foldl_max_init (max d v) as)
      · exact ih (max d a) v (List.mem_cons_of_mem _ h2)

lemma foldl_max_mem (d : ℤ) (ds : List ℤ) : ds.foldl max d ∈ d :: ds := by
  induction ds generalizing d with
  | nil => simp
  | cons a as ih =>
    rw [List.foldl_cons]
    rcases List.mem_cons.mp (ih (max d a)) with h | h
    · rcases max_choice d a with hm | hm
      · rw [h, hm]; simp
      · rw [h, hm]; simp
    · simp [h]

lemma foldl_add_cast (l : List ℤ) (a : ℚ) :
    l.foldl (fun (s : ℚ) (x : ℤ) => s + (x : ℚ)) a =
      a + (l.map (fun (d : ℤ) => (d : ℚ))).sum := by
  induction l generalizing a with
  | nil => simp
  | cons x xs ih =>
    rw [List.foldl_cons, ih]
    simp [add_assoc]

/-- Transport of the tracker invariant to the loop's result state. -/
lemma finalState_MapsInv {target_replicas timeout interval : Nat} {tr : GatewayTrace}
    (htr : NonnegTrace tr) {res : LoopState × Bool} {fuel k : Nat} {st : LoopState}
    (hst : MapsInv (elapsedOf st.now) (st.node_first_seen, st.node_ready_time))
    (h : runLoop target_replicas timeout interval tr k fuel st = some res) :
    MapsInv (elapsedOf res.1.now) (res.1.node_first_seen, res.1.node_ready_time) := by
  have := runLoop_inv
    (fun s => MapsInv (elapsedOf s.now) (s.node_first_seen, s.node_ready_time))
    (fun s => MapsInv (elapsedOf s.now) (s.node_first_seen, s.node_ready_time))
    (fun k2 s hlt hP => by
      obtain ⟨hd, hn⟩ := htr.2 k2
      simp only [tickStep]
      refine MapsInv.mono (MapsInv_foldl hP) (elapsedOf_mono (by linarith)))
    (fun s hQ => MapsInv.mono hQ (elapsedOf_mono (by
      show s.now ≤ s.now + (interval : ℚ)
      have : (0 : ℚ) ≤ (interval : ℚ) := by positivity
      linarith)))
    fuel k st res hst h
  rcases this with ⟨_, hq⟩ | ⟨_, hp, _⟩
  · exact hq
  · exact hp

/-- If the first `while`-condition check passes, the loop's result series is
non-empty (each tick appends, and the loop cannot exit before the first
tick). -/
lemma final_series_nonempty {target_replicas timeout interval : Nat} {tr : GatewayTrace}
    (hinit : tr.init_dur < (timeout : ℚ)) {res : LoopState × Bool} {fuel : Nat}
    (h : runLoop target_replicas timeout interval tr 0 fuel (initState tr) = some res) :
    res.1.time_series ≠ [] := by
  have := runLoop_inv
    (fun s => s.time_series = [] → s.now = tr.init_dur)
    (fun s => s.time_series ≠ [])
    (fun k2 s hlt hP => by
      simp only [tickStep]
      exact fun hcon => List.append_ne_nil_of_right_ne_nil _ (by simp) hcon)
    (fun s hQ => fun hnil => absurd hnil hQ)
    fuel 0 (initState tr) res (fun _ => rfl) h
  rcases this with ⟨_, hq⟩ | ⟨_, hp, hge⟩
  · exact hq
  · intro hnil
    rw [hp hnil] at hge
    exact absurd hinit (not_lt.mpr hge)

/-- The tracker invariant holds trivially at the initial state. -/
lemma initState_MapsInv (tr : GatewayTrace) :
    MapsInv (elapsedOf (initState tr).now)
      ((initState tr).node_first_seen, (initState tr).node_ready_time) :=
  ⟨by simp [initState], by simp [initState]⟩

/-- A run whose timeout strictly exceeds the initial snapshot's latency
returns the pair normally, with a non-empty series. -/
lemma track_ok_of_init_lt {target_replicas timeout interval : Nat} {tr : GatewayTrace}
    (htr : NonnegTrace tr) (hint : 1 ≤ interval) (hinit : tr.init_dur < (timeout : ℚ)) :
    ∃ s ds, track_scaling_telemetry target_replicas timeout interval tr =
      some (.ok s ds) ∧ s ≠ [] := by
  obtain ⟨res, hres⟩ := Option.isSome_iff_exists.mp
    (@runLoop_init_isSome target_replicas timeout interval tr hint htr)
  have hne := final_series_nonempty hinit hres
  have hinv := finalState_MapsInv htr (initState_MapsInv tr) hres
  obtain ⟨ds, hfin, hds⟩ := finalize_ok hne hinv.2
  refine ⟨res.1.time_series, ds, ?_, hne⟩
  rw [track_scaling_telemetry, hres, Option.map_some']
  rw [hfin]

lemma mem_of_getLast?_eq {α : Type} {l : List α} {a : α}
    (h : l.getLast? = some a) : a ∈ l := by
  cases l with
  | nil => simp at h
  | cons x xs =>
    rw [List.getLast?_eq_getLast_of_ne_nil (by simp)] at h
    cases h
    exact List.getLast_mem _

end Lemmas

section ConcreteTraces

/-- A zero-latency tick with the given deployment response and node list. -/
def constTick (avail : Option Nat) (nodes : List K8sNode) : TickData :=
  { dep_dur := 0
    dep_status := { available_replicas := avail }
    nodes_dur := 0
    nodes := nodes }

/-- A node reporting a single `Ready`/`True` condition. -/
def readyNode (name : String) : K8sNode :=
  { name := name, conditions := [{ type := "Ready", status := "True" }] }

/-- Environment: empty cluster, deployment constantly at 1 available
replica, all calls instantaneous. -/
def traceAvailOne : GatewayTrace :=
  { init_dur := 0, init_nodes := [], ticks := fun _ => constTick (some 1) [] }

/-- Environment: node `a` present and ready at tick 0, gone from tick 1 on;
deployment never reports replicas. -/
def traceChurn : GatewayTrace :=
  { init_dur := 0, init_nodes := []
    ticks := fun k =>
      if k = 0 then constTick none [readyNode "a"] else constTick none [] }

/-- Environment: the pre-loop node snapshot takes one full second; the loop
ticks themselves are instantaneous. -/
def traceSlowInit : GatewayTrace :=
  { init_dur := 1, init_nodes := [], ticks := fun _ => constTick none [] }

/-- Environment: a single node whose report carries no conditions at all. -/
def traceNoCond : GatewayTrace :=
  { init_dur := 0, init_nodes := []
    ticks := fun _ => constTick none [K8sNode.mk "n1" []] }

/-- Environment: deployment pinned at 500 available replicas, empty
cluster, all calls instantaneous. -/
def traceBelowTarget : GatewayTrace :=
  { init_dur := 0, init_nodes := [], ticks := fun _ => constTick (some 500) [] }

end ConcreteTraces

/-- **C2**: every node with a ready timestamp also has a first-seen
timestamp, set no later; consequently the durations comprehension succeeds
and every `time_to_ready` in the returned mapping is non-negative.  The
hypothesis is that wall-clock time does not run backwards (non-negative
gateway latencies). -/
theorem C2_ready_implies_first_seen (target_replicas timeout interval : Nat)
    (tr : GatewayTrace) (htr : NonnegTrace tr) :
    (∀ st, finalLoopState target_replicas timeout interval tr = some st →
      ∀ n r, lookupName st.node_ready_time n = some r →
        ∃ f, lookupName st.node_first_seen n = some f ∧ f ≤ r) ∧
    (∀ s ds, track_scaling_telemetry target_replicas timeout interval tr =
        some (RunOutcome.ok s ds) → ∀ q ∈ ds, 0 ≤ q.2) := by
  constructor
  · intro st hst n r hr
    rw [finalLoopState] at hst
    obtain ⟨res, hres, hmap⟩ := Option.map_eq_some'.mp hst
    have hinv := finalState_MapsInv htr (initState_MapsInv tr) hres
    rw [hmap] at hinv
    obtain ⟨f, hf, hfe⟩ := hinv.2 (n, r) (lookupName_mem hr)
    exact ⟨f, hf, hfe⟩
  · intro s ds htrk q hq
    rw [track_scaling_telemetry] at htrk
    obtain ⟨res, hres, hmap⟩ := Option.map_eq_some'.mp htrk
    have hinv := finalState_MapsInv htr (initState_MapsInv tr) hres
    obtain ⟨hs, hds⟩ := finalize_ok_elim hmap
    obtain ⟨ds2, hds2, hmapf, hpos⟩ := node_ready_durations_isSome hinv.2
    rw [hds2] at hds
    cases hds
    exact hpos q hq

set_option maxRecDepth 40000 in
set_option maxHeartbeats 1000000 in
/-- Witness for C2 at a concrete environment with a node that becomes
ready: the derived duration of node `a` is non-negative. -/
theorem C2_ready_implies_first_seen_witness :
    (0 : ℤ) ≤ (("a", (0 : ℤ)) : String × ℤ).2 :=
  (C2_ready_implies_first_seen 5 20 10 traceChurn
    (by
      refine ⟨by norm_num [traceChurn], fun k => ?_⟩
      by_cases h : k = 0 <;> simp [traceChurn, constTick, h])).2
    [(0, 0, 1, 1), (10, 0, 0, 1)] [("a", 0)]
    (by
      norm_num [track_scaling_telemetry, runLoop, tickStep, initState, traceChurn,
        constTick, readyNode, elapsedOf, finalize, node_ready_durations_of,
        processNode, readyScan, lookupName, List.dedup, Int.toNat_ofNat,
        show Int.toNat 10 = 10 from rfl])
    ("a", 0) (by simp)

/-- **C4**: per-node observation is idempotent with respect to already-set
timestamps: a recorded `first_seen` or `ready` value survives any further
observation of the same node, and once both are recorded the observation
leaves the tracker state entirely unchanged. -/
theorem C4_observe_idempotent (e2 : Nat)
    (maps : List (String × Nat) × List (String × Nat)) (node : K8sNode) :
    (∀ f, lookupName maps.1 node.name = some f →
      lookupName (processNode e2 maps node).1 node.name = some f) ∧
    (∀ r, lookupName maps.2 node.name = some r →
      lookupName (processNode e2 maps node).2 node.name = some r) ∧
    (∀ f r, lookupName maps.1 node.name = some f →
      lookupName maps.2 node.name = some r → processNode e2 maps node = maps) := by
  refine ⟨?_, ?_, ?_⟩
  · intro f hf
    rw [processNode_fst_lookup]
    simp [hf]
  · intro r hr
    rw [processNode_eq]
    exact readyScan_lookup_preserved hr
  · intro f r hf hr
    rw [processNode_eq, readyScan_eq_of_some hr,
      if_neg (by rw [hf]; exact fun h => Option.noConfusion h)]

/-- Witness for C4: a node seen at 3 and ready at 5 is re-observed ready at
tick 9 and nothing changes. -/
theorem C4_observe_idempotent_witness :
    lookupName [("a", 3)] "a" = some 3 ∧ lookupName [("a", 5)] "a" = some 5 ∧
    processNode 9 ([("a", 3)], [("a", 5)]) (readyNode "a") = ([("a", 3)], [("a", 5)]) :=
  ⟨rfl, rfl,
    (C4_observe_idempotent 9 ([("a", 3)], [("a", 5)]) (readyNode "a")).2.2 3 5 rfl rfl⟩

/-- **C5**: the aggregate statistics are computed over exactly the durations
of nodes outside the initial snapshot: when every ready node pre-existed the
summary is `(0, 0, 0)` (no division by zero), a pre-existing node's entry
never affects the summary, and on a non-empty new-node set the reported
minimum/maximum are attained bounds of that subset and the mean is its
rounded arithmetic average. -/
theorem C5_summary_over_new_nodes (initial_nodes : List String)
    (nrd : List (String × ℤ)) :
    ((∀ p ∈ nrd, p.1 ∈ initial_nodes) →
      scalingSummary initial_nodes nrd = (0, 0, 0)) ∧
    (∀ n d, n ∈ initial_nodes →
      scalingSummary initial_nodes ((n, d) :: nrd) = scalingSummary initial_nodes nrd) ∧
    (∀ vals, (nrd.filter (fun p => decide (p.1 ∉ initial_nodes))).map Prod.snd = vals →
      vals ≠ [] →
      (scalingSummary initial_nodes nrd).1 ∈ vals ∧
      (∀ v ∈ vals, (scalingSummary initial_nodes nrd).1 ≤ v) ∧
      (scalingSummary initial_nodes nrd).2.1 ∈ vals ∧
      (∀ v ∈ vals, v ≤ (scalingSummary initial_nodes nrd).2.1) ∧
      (scalingSummary initial_nodes nrd).2.2 =
        pyRound2 ((vals.map (fun (d : ℤ) => (d : ℚ))).sum / (vals.length : ℚ))) := by
  refine ⟨?_, ?_, ?_⟩
  · intro h
    have hfil : nrd.filter (fun p => decide (p.1 ∉ initial_nodes)) = [] := by
      refine List.filter_eq_nil_iff.mpr ?_
      intro p hp
      simp [h p hp]
    simp only [scalingSummary]
    rw [hfil]
    rfl
  · intro n d hn
    simp [scalingSummary, List.filter_cons, hn]
  · intro vals hv hne
    cases hL : (nrd.filter (fun p => decide (p.1 ∉ initial_nodes))).map Prod.snd with
    | nil =>
      rw [hL] at hv
      exact absurd hv.symm hne
    | cons d ds =>
      rw [hL] at hv
      subst hv
      simp only [scalingSummary, hL]
      refine ⟨foldl_min_mem d ds, foldl_min_le d ds, foldl_max_mem d ds,
        le_foldl_max d ds, ?_⟩
      rw [foldl_add_cast]
      simp

/-- Witness for C5: the pre-existing node `a` is excluded; stats run over
`b` only, and with only `a` ready the summary is all zeroes. -/
theorem C5_summary_over_new_nodes_witness :
    scalingSummary ["a"] [("a", 5)] = (0, 0, 0) ∧
    (scalingSummary ["a"] [("a", 5), ("b", 3)]).1 ∈ [(3 : ℤ)] ∧
    scalingSummary ["a"] [("a", 5), ("b", 3)] = scalingSummary [] [("b", 3)] := by
  refine ⟨(C5_summary_over_new_nodes ["a"] [("a", 5)]).1 (by decide), ?_, ?_⟩
  · exact ((C5_summary_over_new_nodes ["a"] [("a", 5), ("b", 3)]).2.2
      [(3 : ℤ)] (by decide) (by decide)).1
  · exact ((C5_summary_over_new_nodes ["a"] [("b", 3)]).2.1 "a" 5 (by decide)).trans
      (by simp [scalingSummary])

/-- **C6**: a node report with no conditions present is treated as not
ready: its first-seen timestamp is recorded, its ready timestamp is not, and
the run carries on and completes normally (demonstrated on a run whose only
node has an empty condition list). -/
theorem C6_missing_conditions_not_ready (elapsed : Nat)
    (maps : List (String × Nat) × List (String × Nat)) (name : String) :
    ((processNode elapsed maps (K8sNode.mk name [])).2 = maps.2) ∧
    (lookupName (processNode elapsed maps (K8sNode.mk name [])).1 name ≠ none) ∧
    track_scaling_telemetry 5 1 10 traceNoCond =
      some (RunOutcome.ok [(0, 0, 1, 0)] []) ∧
    (finalLoopState 5 1 10 traceNoCond).map LoopState.node_first_seen =
      some [("n1", 0)] := by
  refine ⟨rfl, ?_, ?_, ?_⟩
  · rw [processNode_fst_lookup]
    by_cases h0 : lookupName maps.1 name = none <;> simp [h0]
  · norm_num [track_scaling_telemetry, runLoop, tickStep, initState, traceNoCond,
      constTick, elapsedOf, finalize, node_ready_durations_of, processNode,
      readyScan, lookupName, List.dedup, Int.toNat_ofNat]
  · norm_num [finalLoopState, runLoop, tickStep, initState, traceNoCond,
      constTick, elapsedOf, processNode, readyScan, lookupName, List.dedup,
      Int.toNat_ofNat]

/-- **C8**: a null `available_replicas` behaves exactly like `0`, both in
the recorded sample and in the stop-condition comparison. -/
theorem C8_null_available_replicas_zero (target_replicas : Nat) (td : TickData)
    (st : LoopState) (h : td.dep_status.available_replicas = none) :
    tickStep target_replicas td st =
      tickStep target_replicas
        { td with dep_status := { available_replicas := some 0 } } st ∧
    (tickStep target_replicas td st).1.time_series =
      st.time_series ++ [(elapsedOf st.now, 0,
        ((td.nodes.map K8sNode.name).dedup).length,
        ((td.nodes.foldl (processNode (elapsedOf st.now))
          (st.node_first_seen, st.node_ready_time)).2).length)] ∧
    (tickStep target_replicas td st).2 = decide (target_replicas ≤ 0) := by
  refine ⟨?_, ?_, ?_⟩ <;> simp [tickStep, h]

/-- Witness for C6: a condition-less node observed at tick 3 gets a
first-seen record and no ready record. -/
theorem C6_missing_conditions_not_ready_witness :
    (processNode 3 (([], []) : List (String × Nat) × List (String × Nat))
      (K8sNode.mk "n" [])).2 = [] ∧
    lookupName (processNode 3 (([], []) : List (String × Nat) × List (String × Nat))
      (K8sNode.mk "n" [])).1 "n" ≠ none :=
  ⟨(C6_missing_conditions_not_ready 3 ([], []) "n").1,
    (C6_missing_conditions_not_ready 3 ([], []) "n").2.1⟩

/-- Witness for C8 at a concrete null-replica tick. -/
theorem C8_null_available_replicas_zero_witness :
    (tickStep 5 (constTick none []) (initState traceNoCond)).2 = decide (5 ≤ 0) :=
  (C8_null_available_replicas_zero 5 (constTick none [])
    (initState traceNoCond) rfl).2.2

set_option maxRecDepth 40000 in
set_option maxHeartbeats 1000000 in
/-- **C9**: the `ready_nodes` component of successive samples never
decreases, the last sample's count equals the number of distinct nodes ever
recorded ready (the size of the returned durations mapping, whose keys are
distinct) — and it can exceed `total_nodes` after node churn, as the
`traceChurn` run shows with sample `(10, 0, 0, 1)`. -/
theorem C9_ready_count_monotone (target_replicas timeout interval : Nat)
    (tr : GatewayTrace) :
    (∀ st, finalLoopState target_replicas timeout interval tr = some st →
      ((st.time_series.map (fun s => s.2.2.2)).Chain' (fun a b => a ≤ b)) ∧
      (∀ x, st.time_series.getLast? = some x →
        x.2.2.2 = st.node_ready_time.length) ∧
      ((st.node_ready_time.map Prod.fst).Nodup)) ∧
    (∀ s ds, track_scaling_telemetry target_replicas timeout interval tr =
        some (RunOutcome.ok s ds) →
      ((s.map (fun x => x.2.2.2)).Chain' (fun a b => a ≤ b)) ∧
      ((ds.map Prod.fst).Nodup) ∧
      (∀ x, s.getLast? = some x → x.2.2.2 = ds.length)) ∧
    (track_scaling_telemetry 5 20 10 traceChurn =
      some (RunOutcome.ok [(0, 0, 1, 1), (10, 0, 0, 1)] [("a", 0)]) ∧
      ((10, 0, 0, 1) : Nat × Nat × Nat × Nat).2.2.1 <
        ((10, 0, 0, 1) : Nat × Nat × Nat × Nat).2.2.2) := by
  have key : ∀ fuel k st res,
      (((st.time_series.map (fun x => x.2.2.2)).Chain' (fun a b => a ≤ b)) ∧
        (∀ x, st.time_series.getLast? = some x →
          x.2.2.2 = st.node_ready_time.length) ∧
        ((st.node_ready_time.map Prod.fst).Nodup)) →
      runLoop target_replicas timeout interval tr k fuel st = some res →
      ((res.1.time_series.map (fun x => x.2.2.2)).Chain' (fun a b => a ≤ b)) ∧
        (∀ x, res.1.time_series.getLast? = some x →
          x.2.2.2 = res.1.node_ready_time.length) ∧
        ((res.1.node_ready_time.map Prod.fst).Nodup) := by
    intro fuel k st res hP h
    have := runLoop_inv
      (fun s => ((s.time_series.map (fun x => x.2.2.2)).Chain' (fun a b => a ≤ b)) ∧
        (∀ x, s.time_series.getLast? = some x → x.2.2.2 = s.node_ready_time.length) ∧
        ((s.node_ready_time.map Prod.fst).Nodup))
      (fun s => ((s.time_series.map (fun x => x.2.2.2)).Chain' (fun a b => a ≤ b)) ∧
        (∀ x, s.time_series.getLast? = some x → x.2.2.2 = s.node_ready_time.length) ∧
        ((s.node_ready_time.map Prod.fst).Nodup))
      (fun k2 s hlt hs => by
        obtain ⟨hch, hlast, hnd⟩ := hs
        simp only [tickStep]
        refine ⟨?_, ?_, foldl_snd_nodup hnd⟩
        · rw [List.map_append, List.map_cons, List.map_nil]
          refine chain'_append_singleton hch ?_
          intro x hx
          rw [List.getLast?_map] at hx
          cases hy : s.time_series.getLast? with
          | none => rw [hy] at hx; cases hx
          | some y =>
            rw [hy] at hx
            cases hx
            show y.2.2.2 ≤ _
            rw [hlast y hy]
            exact foldl_snd_length_le (elapsedOf s.now)
              (s.node_first_seen, s.node_ready_time) (tr.ticks k2).nodes
        · intro x hx
          rw [List.getLast?_concat] at hx
          cases hx
          rfl)
      (fun s hs => hs)
      fuel k st res hP h
    rcases this with ⟨_, hq⟩ | ⟨_, hp, _⟩
    · exact hq
    · exact hp
  refine ⟨?_, ?_, ?_, by norm_num⟩
  · intro st hst
    rw [finalLoopState] at hst
    obtain ⟨res, hres, hmap⟩ := Option.map_eq_some'.mp hst
    rw [← hmap]
    exact key _ _ _ _ ⟨by simp [initState], by simp [initState], by simp [initState]⟩ hres
  · intro s ds htrk
    rw [track_scaling_telemetry] at htrk
    obtain ⟨res, hres, hmap⟩ := Option.map_eq_some'.mp htrk
    obtain ⟨hch, hlast, hnd⟩ :=
      key _ _ _ _ ⟨by simp [initState], by simp [initState], by simp [initState]⟩ hres
    obtain ⟨hs, hds⟩ := finalize_ok_elim hmap
    subst hs
    have hfst := node_ready_durations_map_fst hds
    have hlen : ds.length = res.1.node_ready_time.length := by
      rw [← List.length_map ds Prod.fst, hfst, List.length_map]
    refine ⟨hch, by rw [hfst]; exact hnd, ?_⟩
    intro x hx
    rw [hlen]
    exact hlast x hx
  · norm_num [track_scaling_telemetry, runLoop, tickStep, initState, traceChurn,
      constTick, readyNode, elapsedOf, finalize, node_ready_durations_of,
      processNode, readyScan, lookupName, List.dedup, Int.toNat_ofNat,
      show Int.toNat 10 = 10 from rfl]

/-- Witness for C9 at the churn environment: the concrete run's ready
counts `[1, 1]` are non-decreasing and its durations keys are distinct. -/
theorem C9_ready_count_monotone_witness :
    ((([(0, 0, 1, 1), (10, 0, 0, 1)] : List (Nat × Nat × Nat × Nat)).map
      (fun x => x.2.2.2)).Chain' (fun a b => a ≤ b)) ∧
    ((([("a", (0 : ℤ))]).map Prod.fst).Nodup) :=
  have h := (C9_ready_count_monotone 5 20 10 traceChurn).2.1
    [(0, 0, 1, 1), (10, 0, 0, 1)] [("a", 0)]
    ((C9_ready_count_monotone 5 20 10 traceChurn).2.2).1
  ⟨h.1, h.2.1⟩

/-- **C10**: finalization reads `time_series[-1]`, so the call returns the
pair exactly when at least one iteration ran: with the timeout strictly
above the initial snapshot's latency the series is non-empty and the run
returns it, while a timeout already exhausted at the first check makes the
call raise (`err`) instead of returning an empty result. -/
theorem C10_finalization_needs_one_sample (target_replicas timeout interval : Nat)
    (tr : GatewayTrace) (htr : NonnegTrace tr) (hint : 1 ≤ interval) :
    (tr.init_dur < (timeout : ℚ) →
      ∃ s ds, track_scaling_telemetry target_replicas timeout interval tr =
        some (RunOutcome.ok s ds) ∧ s ≠ []) ∧
    ((timeout : ℚ) ≤ tr.init_dur →
      track_scaling_telemetry target_replicas timeout interval tr =
        some RunOutcome.err) := by
  constructor
  · exact fun h => track_ok_of_init_lt htr hint h
  · intro h
    rw [track_scaling_telemetry,
      runLoop_exit (by simp only [initState]; exact not_lt.mpr h),
      Option.map_some']
    rfl

/-- Witness for C10: with a one-second snapshot, timeout 2 returns a
non-empty series and timeout 1 raises. -/
theorem C10_finalization_needs_one_sample_witness :
    (∃ s ds, track_scaling_telemetry 5 2 10 traceSlowInit =
      some (RunOutcome.ok s ds) ∧ s ≠ []) ∧
    track_scaling_telemetry 5 1 10 traceSlowInit = some RunOutcome.err := by
  have htrw : NonnegTrace traceSlowInit := by
    refine ⟨by norm_num [traceSlowInit], fun k => ?_⟩
    simp [traceSlowInit, constTick]
  exact ⟨(C10_finalization_needs_one_sample 5 2 10 traceSlowInit htrw
      (by norm_num)).1 (by norm_num [traceSlowInit]),
    (C10_finalization_needs_one_sample 5 1 10 traceSlowInit htrw
      (by norm_num)).2 (by norm_num [traceSlowInit])⟩

/-- **C7 (counterexample)**: the returned value does not include a
reached-target flag: a run that reaches its target (target 1) and a run
that times out (target 2, timeout 5) return the *same* value, so no
component of the return value indicates which way the loop ended — the
outcome exists only in the loop's control flow (and the logs). -/
theorem C7_counterexample_no_flag_in_result :
    track_scaling_telemetry 1 10 10 traceAvailOne =
      track_scaling_telemetry 2 5 10 traceAvailOne ∧
    loopReached 1 10 10 traceAvailOne = some true ∧
    loopReached 2 5 10 traceAvailOne = some false := by
  have h1 : track_scaling_telemetry 1 10 10 traceAvailOne =
      some (RunOutcome.ok [(0, 1, 0, 0)] []) := by
    norm_num [track_scaling_telemetry, runLoop, tickStep, initState, traceAvailOne,
      constTick, elapsedOf, finalize, node_ready_durations_of, List.dedup]
  have h2 : track_scaling_telemetry 2 5 10 traceAvailOne =
      some (RunOutcome.ok [(0, 1, 0, 0)] []) := by
    norm_num [track_scaling_telemetry, runLoop, tickStep, initState, traceAvailOne,
      constTick, elapsedOf, finalize, node_ready_durations_of, List.dedup,
      Int.toNat_ofNat]
  refine ⟨h1.trans h2.symm, ?_, ?_⟩
  · norm_num [loopReached, runLoop, tickStep, initState, traceAvailOne, constTick]
  · norm_num [loopReached, runLoop, tickStep, initState, traceAvailOne, constTick,
      elapsedOf, Int.toNat_ofNat]

/-- **C7 (amended)**: timeout exhaustion is never signaled as an exception —
a run that times out after at least one tick returns the pair
`(time_series, node_ready_durations)` normally, exactly like a successful
run; but the return value carries no reached-target boolean (see the
counterexample), the outcome being only logged. -/
theorem C7_timeout_not_exception (target_replicas timeout interval : Nat)
    (tr : GatewayTrace) (htr : NonnegTrace tr) (hint : 1 ≤ interval)
    (hinit : tr.init_dur < (timeout : ℚ))
    (hto : loopReached target_replicas timeout interval tr = some false) :
    ∃ s ds, track_scaling_telemetry target_replicas timeout interval tr =
      some (RunOutcome.ok s ds) := by
  obtain ⟨s, ds, h, _⟩ := track_ok_of_init_lt htr hint hinit
  exact ⟨s, ds, h⟩

set_option maxRecDepth 40000 in
set_option maxHeartbeats 1000000 in
/-- Witness for C7 (amended): the 30-second run pinned at 500 replicas times
out and still returns normally. -/
theorem C7_timeout_not_exception_witness :
    ∃ s ds, track_scaling_telemetry 1000 30 10 traceBelowTarget =
      some (RunOutcome.ok s ds) := by
  refine C7_timeout_not_exception 1000 30 10 traceBelowTarget
    ⟨by norm_num [traceBelowTarget], fun k => by simp [traceBelowTarget, constTick]⟩
    (by norm_num) (by norm_num [traceBelowTarget]) ?_
  norm_num [loopReached, runLoop, tickStep, initState, traceBelowTarget, constTick,
    elapsedOf, Int.toNat_ofNat]

/-- **C3 (amended)**: across every run the samples' elapsed values are
strictly increasing (given a positive polling interval and non-negative
latencies), and the first sample's elapsed value equals the floored latency
of the pre-loop initial node snapshot — in particular it is `0` whenever
that snapshot completes in under one second.  There is no initial sleep:
the first tick's elapsed value is determined by the snapshot latency
alone. -/
theorem C3_elapsed_strictly_increasing (target_replicas timeout interval : Nat)
    (tr : GatewayTrace) (htr : NonnegTrace tr) (hint : 1 ≤ interval) :
    ∀ st, finalLoopState target_replicas timeout interval tr = some st →
      ((st.time_series.map (fun x => x.1)).Chain' (fun a b => a < b)) ∧
      (∀ x, st.time_series.head? = some x → x.1 = elapsedOf tr.init_dur) ∧
      (tr.init_dur < 1 → ∀ x, st.time_series.head? = some x → x.1 = 0) := by
  have hcast : (1 : ℚ) ≤ (interval : ℚ) := by exact_mod_cast hint
  have hicast : (0 : ℚ) ≤ (interval : ℚ) := by positivity
  intro st hst
  rw [finalLoopState] at hst
  obtain ⟨res, hres, hmap⟩ := Option.map_eq_some'.mp hst
  have key := runLoop_inv
    (fun s => 0 ≤ s.now ∧
      ((s.time_series.map (fun x => x.1)).Chain' (fun a b => a < b)) ∧
      (∀ x ∈ s.time_series, x.1 < elapsedOf s.now) ∧
      (s.time_series = [] → s.now = tr.init_dur) ∧
      (∀ x, s.time_series.head? = some x → x.1 = elapsedOf tr.init_dur))
    (fun s => 0 ≤ s.now ∧
      ((s.time_series.map (fun x => x.1)).Chain' (fun a b => a < b)) ∧
      (∀ x ∈ s.time_series, x.1 ≤ elapsedOf s.now) ∧
      (s.time_series ≠ []) ∧
      (∀ x, s.time_series.head? = some x → x.1 = elapsedOf tr.init_dur))
    (fun k2 s hlt hP => by
      obtain ⟨hn0, hch, hbd, hemp, hhead⟩ := hP
      obtain ⟨hdd, hnn⟩ := htr.2 k2
      simp only [tickStep]
      refine ⟨by linarith, ?_, ?_, ?_, ?_⟩
      · rw [List.map_append, List.map_cons, List.map_nil]
        refine chain'_append_singleton hch ?_
        intro x hx
        rw [List.getLast?_map] at hx
        cases hy : s.time_series.getLast? with
        | none => rw [hy] at hx; cases hx
        | some y =>
          rw [hy] at hx
          cases hx
          exact hbd y (mem_of_getLast?_eq hy)
      · intro x hx
        rcases List.mem_append.mp hx with hm | hm
        · exact le_trans (le_of_lt (hbd x hm)) (elapsedOf_mono (by linarith))
        · rw [List.mem_singleton] at hm
          subst hm
          exact elapsedOf_mono (by linarith)
      · exact List.append_ne_nil_of_right_ne_nil _ (by simp)
      · intro x hx
        cases hseq : s.time_series with
        | nil =>
          rw [hseq] at hx
          simp only [List.nil_append, List.head?_cons] at hx
          cases hx
          show elapsedOf s.now = elapsedOf tr.init_dur
          rw [hemp hseq]
        | cons a l =>
          rw [hseq] at hx
          simp only [List.cons_append, List.head?_cons] at hx
          cases hx
          exact hhead x (by rw [hseq]; rfl))
    (fun s hQ => by
      obtain ⟨hn0, hch, hbd, hne, hhead⟩ := hQ
      refine ⟨?_, hch, ?_, fun h => absurd h hne, hhead⟩
      · show (0 : ℚ) ≤ s.now + (interval : ℚ)
        linarith
      · intro x hx
        have h1 := hbd x hx
        have h2 := elapsedOf_add_pos hn0 hcast
        show x.1 < elapsedOf (s.now + (interval : ℚ))
        omega)
    (timeout + 1) 0 (initState tr) res
    ⟨htr.1, by simp [initState], by simp [initState], fun _ => rfl, by simp [initState]⟩
    hres
  have hz : tr.init_dur < 1 → elapsedOf tr.init_dur = 0 := by
    intro hsmall
    unfold elapsedOf
    rw [Int.floor_eq_zero_iff.mpr ⟨htr.1, hsmall⟩]
    rfl
  rcases key with ⟨_, _, hch, _, _, hhead⟩ | ⟨_, ⟨_, hch, _, _, hhead⟩, _⟩ <;>
    rw [← hmap] <;>
    exact ⟨hch, hhead, fun hsmall x hx => by rw [hhead x hx, hz hsmall]⟩

/-- Witness for C3 (amended) at the slow-snapshot environment: the first
(and only) sample's elapsed value equals the floored snapshot latency. -/
theorem C3_elapsed_strictly_increasing_witness :
    (((1, 0, 0, 0) : Nat × Nat × Nat × Nat)).1 = elapsedOf traceSlowInit.init_dur :=
  (C3_elapsed_strictly_increasing 5 2 10 traceSlowInit
    ⟨by norm_num [traceSlowInit], fun k => by simp [traceSlowInit, constTick]⟩
    (by norm_num)
    { now := 11, node_first_seen := [], node_ready_time := [],
      time_series := [(1, 0, 0, 0)] }
    (by
      norm_num [finalLoopState, runLoop, tickStep, initState, traceSlowInit,
        constTick, elapsedOf, List.dedup, show Int.toNat 1 = 1 from rfl,
        show Int.toNat 11 = 11 from rfl])).2.1
    (1, 0, 0, 0) rfl

/-- **C3 (counterexample)**: when the pre-loop node snapshot takes one
second, the first sample's elapsed value is `1`, not `0` — the claim that
the Telemetry Series always starts at elapsed `0` fails on such a run. -/
theorem C3_counterexample_first_elapsed_nonzero :
    track_scaling_telemetry 5 2 10 traceSlowInit =
      some (RunOutcome.ok [(1, 0, 0, 0)] []) ∧
    ¬ (∀ s ds, track_scaling_telemetry 5 2 10 traceSlowInit =
        some (RunOutcome.ok s ds) → ∀ x, s.head? = some x → x.1 = 0) := by
  have h : track_scaling_telemetry 5 2 10 traceSlowInit =
      some (RunOutcome.ok [(1, 0, 0, 0)] []) := by
    norm_num [track_scaling_telemetry, runLoop, tickStep, initState, traceSlowInit,
      constTick, elapsedOf, finalize, node_ready_durations_of, List.dedup,
      show Int.toNat 1 = 1 from rfl, show Int.toNat 11 = 11 from rfl]
  refine ⟨h, fun hall => ?_⟩
  have h1 := hall _ _ h (1, 0, 0, 0) rfl
  exact one_ne_zero h1

/-- Packaging of a fully evaluated loop: if the loop's result is known, a
sound non-empty final state yields the returned pair and the exit flag. -/
lemma track_eval_of_runLoop {target_replicas timeout interval : Nat}
    {tr : GatewayTrace} {stF : LoopState} {b : Bool}
    (hrun : runLoop target_replicas timeout interval tr 0 (timeout + 1)
      (initState tr) = some (stF, b))
    (hne : stF.time_series ≠ [])
    (hinv : ∀ p ∈ stF.node_ready_time,
      ∃ f, lookupName stF.node_first_seen p.1 = some f ∧ f ≤ p.2) :
    ∃ ds, track_scaling_telemetry target_replicas timeout interval tr =
        some (RunOutcome.ok stF.time_series ds) ∧
      loopReached target_replicas timeout interval tr = some b := by
  obtain ⟨ds, hfin, _⟩ := finalize_ok hne hinv
  refine ⟨ds, ?_, ?_⟩
  · rw [track_scaling_telemetry, hrun, Option.map_some']
    rw [hfin]
  · rw [loopReached, hrun, Option.map_some']

/-- **C1**: target 1000, timeout 30, interval 10, instantaneous gateway
calls, every poll below target: the loop checks `elapsed < timeout` at the
top of each iteration, takes exactly 3 samples at elapsed times 0, 10, 20
(the check at 30 fails), never reaches the target, and still returns the
partial pair (time series and durations) normally. -/
theorem C1_timeout_three_samples (tr : GatewayTrace) (h0 : tr.init_dur = 0)
    (hd : ∀ k, (tr.ticks k).dep_dur = 0 ∧ (tr.ticks k).nodes_dur = 0)
    (ha : ∀ k, ((tr.ticks k).dep_status.available_replicas.getD 0) < 1000) :
    ∃ s ds, track_scaling_telemetry 1000 30 10 tr = some (RunOutcome.ok s ds) ∧
      s.map (fun x => x.1) = [0, 10, 20] ∧ s.length = 3 ∧
      loopReached 1000 30 10 tr = some false := by
  have hst0 : initState tr = ⟨0, [], [], []⟩ := by rw [initState, h0]
  have e1 := @runLoop_step_no_break 1000 30 10 tr 0 30 ⟨0, [], [], []⟩
    (by norm_num) (not_le.mpr (ha 0))
  norm_num [(hd 0).1, (hd 0).2, elapsedOf, Int.toNat_ofNat] at e1
  have e2 := @runLoop_step_no_break 1000 30 10 tr 1 29
    ⟨10, (List.foldl (processNode 0) ([], []) (tr.ticks 0).nodes).1,
      (List.foldl (processNode 0) ([], []) (tr.ticks 0).nodes).2,
      [(0, (tr.ticks 0).dep_status.available_replicas.getD 0,
        (List.map K8sNode.name (tr.ticks 0).nodes).dedup.length,
        (List.foldl (processNode 0) ([], []) (tr.ticks 0).nodes).2.length)]⟩
    (by norm_num) (not_le.mpr (ha 1))
  norm_num [(hd 1).1, (hd 1).2, elapsedOf, Int.toNat_ofNat,
    show Int.toNat 10 = 10 from rfl] at e2
  have e3 := @runLoop_step_no_break 1000 30 10 tr 2 28
    ⟨20,
      (List.foldl (processNode 10) (List.foldl (processNode 0) ([], []) (tr.ticks 0).nodes)
        (tr.ticks 1).nodes).1,
      (List.foldl (processNode 10) (List.foldl (processNode 0) ([], []) (tr.ticks 0).nodes)
        (tr.ticks 1).nodes).2,
      [(0, (tr.ticks 0).dep_status.available_replicas.getD 0,
        (List.map K8sNode.name (tr.ticks 0).nodes).dedup.length,
        (List.foldl (processNode 0) ([], []) (tr.ticks 0).nodes).2.length),
       (10, (tr.ticks 1).dep_status.available_replicas.getD 0,
        (List.map K8sNode.name (tr.ticks 1).nodes).dedup.length,
        (List.foldl (processNode 10) (List.foldl (processNode 0) ([], []) (tr.ticks 0).nodes)
          (tr.ticks 1).nodes).2.length)]⟩
    (by norm_num) (not_le.mpr (ha 2))
  norm_num [(hd 2).1, (hd 2).2, elapsedOf, Int.toNat_ofNat,
    show Int.toNat 20 = 20 from rfl] at e3
  have e4 := @runLoop_exit 1000 30 10 tr 3 27
    ⟨30,
      (List.foldl (processNode 20) (List.foldl (processNode 10)
        (List.foldl (processNode 0) ([], []) (tr.ticks 0).nodes) (tr.ticks 1).nodes)
        (tr.ticks 2).nodes).1,
      (List.foldl (processNode 20) (List.foldl (processNode 10)
        (List.foldl (processNode 0) ([], []) (tr.ticks 0).nodes) (tr.ticks 1).nodes)
        (tr.ticks 2).nodes).2,
      [(0, (tr.ticks 0).dep_status.available_replicas.getD 0,
        (List.map K8sNode.name (tr.ticks 0).nodes).dedup.length,
        (List.foldl (processNode 0) ([], []) (tr.ticks 0).nodes).2.length),
       (10, (tr.ticks 1).dep_status.available_replicas.getD 0,
        (List.map K8sNode.name (tr.ticks 1).nodes).dedup.length,
        (List.foldl (processNode 10) (List.foldl (processNode 0) ([], []) (tr.ticks 0).nodes)
          (tr.ticks 1).nodes).2.length),
       (20, (tr.ticks 2).dep_status.available_replicas.getD 0,
        (List.map K8sNode.name (tr.ticks 2).nodes).dedup.length,
        (List.foldl (processNode 20) (List.foldl (processNode 10)
          (List.foldl (processNode 0) ([], []) (tr.ticks 0).nodes) (tr.ticks 1).nodes)
          (tr.ticks 2).nodes).2.length)]⟩
    (by norm_num)
  have efull := e1.trans (e2.trans (e3.trans e4))
  rw [← hst0] at efull
  obtain ⟨ds, htrk, hreach⟩ := track_eval_of_runLoop efull (by simp)
    (by
      intro p hp
      refine (MapsInv_foldl (MapsInv.mono (MapsInv_foldl (MapsInv.mono (MapsInv_foldl
        (⟨by simp, by simp⟩ :
          MapsInv 0 (([], []) : List (String × Nat) × List (String × Nat))))
        (by norm_num))) (by norm_num))).2 p hp)
  exact ⟨_, ds, htrk, by simp, by simp, hreach⟩

/-- Witness for C1 at a concrete environment pinned at 500 replicas. -/
theorem C1_timeout_three_samples_witness :
    ∃ s ds, track_scaling_telemetry 1000 30 10 traceBelowTarget =
        some (RunOutcome.ok s ds) ∧
      s.map (fun x => x.1) = [0, 10, 20] ∧ s.length = 3 ∧
      loopReached 1000 30 10 traceBelowTarget = some false :=
  C1_timeout_three_samples traceBelowTarget (by norm_num [traceBelowTarget])
    (fun k => by simp [traceBelowTarget, constTick])
    (fun k => by simp [traceBelowTarget, constTick])

end Zeus
